import Mathlib

/-!
Verification of the lead lifecycle and assignment engine of the Tele_Calling
CRM.  The definitions below are a shallow embedding of the JavaScript source:

* `updateLeadNotes`   — controllers/employeeController.js, `updateLeadNotes`
* `updateLeadStatus`  — controllers/managerController.js (unnamed/part_010),
  `updateLeadStatus`
* `assignRoute`       — routes/manager.js, `POST /leads/assign`
* `autoRoute`         — routes/manager.js, `POST /leads/assign/auto`
* `manualMapRoute`    — routes/manager.js, `POST /leads/assign/manual-map`
* `reassignRoute`     — controllers/managerController.js (unnamed/part_010),
  `reassignLeads`
* `deleteLead`        — controllers/managerController.js, `deleteLead`

Modelling conventions:
* Mongo ObjectIds are `Nat`; dates are `Int` milliseconds since the epoch.
* A Mongoose document field that can be `undefined` is an `Option`.
* A handler returns `Except Err α`: `.error` means the handler responded with
  an error status and never called `save()`, so the stored documents are
  unchanged; `.ok` carries the saved state.  Batch routes additionally return
  the list of leads written (`save()`d) during the request, in save order.
* `Math.random()`-driven choices are abstracted by an oracle `rand : Nat → Nat`
  indexed by the number of random draws made so far; the drawn index is
  `rand k % n`, which ranges over exactly the values `Math.floor(Math.random()*n)`
  can produce.
-/

deriving instance DecidableEq for Except

/-- One element of a lead's `previousAssignments` audit array. -/
structure AssignmentEntry where
  employee : Option Nat
  assignedAt : Int
  status : String
deriving Repr, DecidableEq

/-- The fields of models/Lead.js touched by the lifecycle and assignment code.
`createdBy` is total because `createLead` always sets it at creation. -/
structure Lead where
  id : Nat
  status : String
  notes : Option String
  followUpDate : Option Int
  sellingPrice : Option Int
  lossReason : Option String
  deadLeadReason : Option String
  deadLeadDate : Option Int
  reassignmentDate : Option Int
  assignedTo : Option Nat
  createdBy : Nat
  createdAt : Int
  previousAssignments : List AssignmentEntry
deriving Repr, DecidableEq

/-- The fields of models/User.js used by the assignment code: the id and the
manager-reporting edge (`manager` is unset for admins and managers). -/
structure User where
  id : Nat
  manager : Option Nat
deriving Repr, DecidableEq

/-- An HTTP error response: status code and the `error` message string. -/
structure Err where
  code : Nat
  msg : String
deriving Repr, DecidableEq

/-- `14 * 24 * 60 * 60 * 1000` milliseconds, the literal used by both
status-update handlers when they set `reassignmentDate`. -/
def twoWeeksMs : Int := 14 * 24 * 60 * 60 * 1000

/-- The raw `followUpDate` string of an employee update request body:
absent, empty/whitespace (trims to `''`), present but unparseable
(`new Date(s)` is `Invalid Date`), or parsing to time `t`. -/
inductive DateStr where
  | absent
  | blank
  | invalid
  | valid (t : Int)
deriving Repr, DecidableEq

/-- `followUpDate && followUpDate.trim() !== '' ? followUpDate : undefined`,
composed with the later `new Date`/`isNaN` parse: `none` is a missing value,
`some none` an invalid date string, `some (some t)` a date parsing to `t`. -/
def DateStr.clean : DateStr → Option (Option Int)
  | .absent => none
  | .blank => none
  | .invalid => some none
  | .valid t => some (some t)

/-- Appending a note to the `notes` string field with the `'\n\n'` separator. -/
def appendNote (old : Option String) (n : String) : String :=
  match old with
  | some o => o ++ "\n\n" ++ n
  | none => n

/-- `lead.assignedTo && String(lead.assignedTo) !== String(req.user._id)`:
true iff `assignedTo` is set and differs from the acting employee's id. -/
def histCondEmp (assignedTo : Option Nat) (userId : Nat) : Bool :=
  match assignedTo with
  | some a => a != userId
  | none => false

/-- PUT /api/employee/update-lead (controllers/employeeController.js,
`updateLeadNotes`), from the point where the lead document has been fetched.
The preceding `!leadId` (400) and not-found (404) guards return without
writing.  `note = none` and `status = none` model absent or falsy body values;
`now` is `Date.now()` and `startOfToday` is `new Date()` with the time fields
zeroed. -/
def updateLeadNotes (userId : Nat) (lead : Lead) (note : Option String)
    (status : Option String) (followUpDate : DateStr)
    (now startOfToday : Int) : Except Err Lead :=
  if lead.assignedTo ≠ some userId then
    .error ⟨403, "Not allowed to update this lead"⟩
  else
    let l1 := match note with
      | some n => { lead with notes := some (appendNote lead.notes n) }
      | none => lead
    match status with
    | some st =>
      let l2 :=
        if histCondEmp l1.assignedTo userId then
          { l1 with previousAssignments :=
              l1.previousAssignments ++ [⟨l1.assignedTo, now, l1.status⟩] }
        else l1
      let l3 := { l2 with status := st }
      if st = "Follow-up" then
        match followUpDate.clean with
        | none =>
          .error ⟨400, "Follow-up date is required when status is set to Follow-up"⟩
        | some none =>
          .error ⟨400, "Invalid follow-up date format"⟩
        | some (some t) =>
          if t < startOfToday then
            .error ⟨400, "Follow-up date cannot be in the past"⟩
          else
            .ok { l3 with followUpDate := some t }
      else if st = "Hot" then
        .ok { l3 with followUpDate := none,
                      reassignmentDate := some (now + twoWeeksMs) }
      else
        .ok { l3 with followUpDate := none, reassignmentDate := none }
    | none =>
      match followUpDate.clean with
      | some d =>
        if l1.status = "Follow-up" then
          match d with
          | none => .error ⟨400, "Invalid follow-up date format"⟩
          | some t =>
            if t < startOfToday then
              .error ⟨400, "Follow-up date cannot be in the past"⟩
            else
              .ok { l1 with followUpDate := some t }
        else
          .error ⟨400, "Can only set follow-up date when status is Follow-up"⟩
      | none => .ok l1

/-- `lead.assignedTo && String(lead.assignedTo) !== String(assignedTo)`:
when the body omits `assignedTo`, `String(undefined)` is `"undefined"`, which
never equals an ObjectId string, so a set `assignedTo` always triggers. -/
def histCondMgr (cur req : Option Nat) : Bool :=
  match cur, req with
  | some c, some r => c != r
  | some _, none => true
  | none, _ => false

/-- The `// Track previous assignment` step of `updateLeadStatus`: when
`histCondMgr` holds, append the outgoing assignee and the pre-transition
status to `previousAssignments`. -/
def mgrHistApply (lead : Lead) (reqAssign : Option Nat) (now : Int) : Lead :=
  if histCondMgr lead.assignedTo reqAssign then
    { lead with previousAssignments :=
        lead.previousAssignments ++ [⟨lead.assignedTo, now, lead.status⟩] }
  else lead

/-- JS truthiness of an optional number (`0` is falsy). -/
def truthyNum (v : Option Int) : Bool :=
  match v with
  | some p => p != 0
  | none => false

/-- JS truthiness of an optional string (`''` is falsy). -/
def truthyStr (v : Option String) : Bool :=
  match v with
  | some s => s != ""
  | none => false

/-- Membership of an optional id in an id list, `false` for `none`. -/
def optMem (ids : List Nat) (v : Option Nat) : Bool :=
  match v with
  | some a => ids.contains a
  | none => false

/-- PUT /api/manager/update-lead-status (unnamed/part_010,
`updateLeadStatus`), from the point where the lead document has been fetched;
`employeeIds` is the fetched `User.find({manager: managerId})` id list.  The
source tests membership with `Array.prototype.includes` on ObjectId instances
(and, for the body value, a string), which compares by reference and so never
finds a match at runtime; we model the two membership tests by value, the
reading under which strictly more requests reach each branch.  Every theorem
below about this handler either concerns a branch whose write set is the same
under both readings or instantiates it where the two readings agree
(`assignedTo = none`, `lead.createdBy = managerId`). -/
def updateLeadStatus (managerId : Nat) (employeeIds : List Nat) (lead : Lead)
    (status : String) (assignedTo : Option Nat) (followUpDate : Option Int)
    (sellingPrice : Option Int) (lossReason : Option String)
    (now : Int) : Except Err Lead :=
  if status = "" then
    .error ⟨400, "leadId and status are required"⟩
  else if ¬ (optMem employeeIds lead.assignedTo ∨ lead.createdBy = managerId) then
    .error ⟨403, "Not authorized to update this lead"⟩
  else
    let l1 := mgrHistApply lead assignedTo now
    let l2 := { l1 with status := status }
    let next : Except Err Lead :=
      match assignedTo with
      | some e =>
        if ¬ employeeIds.contains e then
          .error ⟨400, "Can only assign to employees under your management"⟩
        else
          .ok { l2 with assignedTo := some e }
      | none => .ok l2
    match next with
    | .error err => .error err
    | .ok l3 =>
      if status = "Follow-up" then
        match followUpDate with
        | none => .error ⟨400, "Follow-up date is required for Follow-up status"⟩
        | some t =>
          .ok { l3 with followUpDate := some t, reassignmentDate := none }
      else if status = "Won" then
        if ¬ truthyNum sellingPrice then
          .error ⟨400, "Selling price is required for Won status"⟩
        else
          .ok { l3 with sellingPrice := sellingPrice,
                        followUpDate := none, reassignmentDate := none }
      else if status = "Lost" then
        if ¬ truthyStr lossReason then
          .error ⟨400, "Loss reason is required for Lost status"⟩
        else
          .ok { l3 with lossReason := lossReason, followUpDate := none,
                        reassignmentDate := some (now + twoWeeksMs) }
      else
        .ok { l3 with followUpDate := none, reassignmentDate := none,
                      sellingPrice := none, lossReason := none }

/-- The team fetched by `User.find({ manager: req.user.id }).select('_id')`:
ids of the users whose `manager` field equals the caller's id, in store
order. -/
def teamOf (callerId : Nat) (users : List User) : List Nat :=
  (users.filter (fun u => u.manager == some callerId)).map (·.id)

/-- POST /api/manager/leads/assign (routes/manager.js).  On success returns
the write set of the `updateMany`: every stored lead whose id is in `leadIds`,
with `assignedTo` set to `employeeId`. -/
def assignRoute (callerId : Nat) (users : List User) (leads : List Lead)
    (leadIds : List Nat) (employeeId : Nat) : Except Err (List Lead) :=
  match users.find? (fun u => u.id == employeeId && u.manager == some callerId) with
  | none => .error ⟨403, "Employee not found or not under your management"⟩
  | some _ =>
    .ok ((leads.filter (fun l => leadIds.contains l.id)).map
      (fun l => { l with assignedTo := some employeeId }))

/-- Sort rank of the `assignedTo`-presence tie-break: `a.assignedTo ? 1 : 0`. -/
def assignedRank (l : Lead) : Nat :=
  if l.assignedTo.isSome then 1 else 0

/-- The `/leads/assign/auto` comparator as a reflexive total order test:
unassigned leads first, then ascending `createdAt`. -/
def leadLE (a b : Lead) : Bool :=
  assignedRank a < assignedRank b ||
    (assignedRank a == assignedRank b && a.createdAt ≤ b.createdAt)

/-- Insert into a `leadLE`-sorted list, before the first element that is not
strictly earlier. -/
def orderedInsertLead (x : Lead) : List Lead → List Lead
  | [] => [x]
  | y :: ys => if leadLE x y then x :: y :: ys else y :: orderedInsertLead x ys

/-- Stable sort by `leadLE`, matching the `Array.prototype.sort` call (stable
per ES2019) on the `allowedLeads` candidates. -/
def sortLeads : List Lead → List Lead
  | [] => []
  | x :: xs => orderedInsertLead x (sortLeads xs)

/-- The `isAuthorized` predicate of `/leads/assign/auto`: the caller created
the lead, or it is unassigned, or it is assigned to a team member. -/
def isAuthorizedAuto (callerId : Nat) (teamIds : List Nat) (l : Lead) : Bool :=
  l.createdBy == callerId || l.assignedTo.isNone || optMem teamIds l.assignedTo

/-- Candidate selection of `/leads/assign/auto`: the requested ids when a
non-empty array was sent, otherwise the accessible-or-unassigned fallback
query. -/
def candidatesOf (callerId : Nat) (teamIds : List Nat) (leads : List Lead)
    (leadIds : Option (List Nat)) : List Lead :=
  let fallback := leads.filter (fun l =>
    l.createdBy == callerId || optMem teamIds l.assignedTo || l.assignedTo.isNone)
  match leadIds with
  | some ids => if ids.isEmpty then fallback else leads.filter (fun l => ids.contains l.id)
  | none => fallback

/-- The ordered `allowedLeads` list of `/leads/assign/auto`. -/
def allowedOf (callerId : Nat) (teamIds : List Nat) (leads : List Lead)
    (leadIds : Option (List Nat)) : List Lead :=
  sortLeads ((candidatesOf callerId teamIds leads leadIds).filter
    (isAuthorizedAuto callerId teamIds))

/-- Response payload of `/leads/assign/auto`, plus the leads written. -/
structure AutoResult where
  assigned : List (Nat × Nat)
  skipped : List Nat
  writes : List Lead
deriving Repr, DecidableEq

/-- The uncapped round-robin loop of `/leads/assign/auto`: lead `i` is offered
to `team[i % team.length]`; a lead already held by that employee goes to
`skipped`, otherwise it is saved with the new assignee and recorded in
`assigned`. -/
def rrAssign (teamIds : List Nat) : List Lead → Nat →
    List (Nat × Nat) × List Nat × List Lead
  | [], _ => ([], [], [])
  | l :: ls, i =>
    let emp := teamIds.getD (i % teamIds.length) 0
    let r := rrAssign teamIds ls (i + 1)
    if l.assignedTo == some emp then
      (r.1, l.id :: r.2.1, r.2.2)
    else
      ((l.id, emp) :: r.1, r.2.1, { l with assignedTo := some emp } :: r.2.2)

/-- The inner `while (count < per && idx < allowedLeads.length)` loop of the
capped branch: give employee `emp` up to `k` leads from the front of the
list; a lead already held by `emp` is skipped without counting toward the
cap.  Returns the assigned pairs, skipped ids, writes, and remaining leads. -/
def giveToEmp (emp : Nat) : Nat → List Lead →
    List (Nat × Nat) × List Nat × List Lead × List Lead
  | _, [] => ([], [], [], [])
  | k, l :: ls =>
    if k = 0 then ([], [], [], l :: ls)
    else if l.assignedTo == some emp then
      let r := giveToEmp emp k ls
      (r.1, l.id :: r.2.1, r.2.2.1, r.2.2.2)
    else
      let r := giveToEmp emp (k - 1) ls
      ((l.id, emp) :: r.1, r.2.1, { l with assignedTo := some emp } :: r.2.2.1,
        r.2.2.2)

/-- The capped branch of `/leads/assign/auto`: iterate the team in order,
giving each employee up to `per` leads before moving on. -/
def cappedAssign (per : Nat) : List Nat → List Lead →
    List (Nat × Nat) × List Nat × List Lead
  | [], _ => ([], [], [])
  | emp :: rest, leads =>
    let g := giveToEmp emp per leads
    let r := cappedAssign per rest g.2.2.2
    (g.1 ++ r.1, g.2.1 ++ r.2.1, g.2.2.1 ++ r.2.2)

/-- POST /api/manager/leads/assign/auto (routes/manager.js).  `perEmployee`
is the body value when `Number.isInteger` accepts it (`per` falls back to 0
otherwise, selecting the uncapped branch). -/
def autoRoute (callerId : Nat) (users : List User) (leads : List Lead)
    (leadIds : Option (List Nat)) (perEmployee : Option Int) :
    Except Err AutoResult :=
  let teamIds := teamOf callerId users
  if teamIds.isEmpty then
    .error ⟨400, "No team members under your management"⟩
  else
    let allowed := allowedOf callerId teamIds leads leadIds
    if allowed.isEmpty then
      .ok ⟨[], [], []⟩
    else
      let per : Int := perEmployee.getD 0
      if 0 < per then
        let r := cappedAssign per.toNat teamIds allowed
        .ok ⟨r.1, r.2.1, r.2.2⟩
      else
        let r := rrAssign teamIds allowed 0
        .ok ⟨r.1, r.2.1, r.2.2⟩

/-- One `{ employeeId, leadIds }` entry of the manual-map body; an absent or
non-array `leadIds` is modelled by the empty list, which takes the same
branch. -/
structure MapEntry where
  employeeId : Nat
  leadIds : List Nat
deriving Repr, DecidableEq

/-- One element of the manual-map `results` array. -/
inductive EntryResult where
  | err (employeeId : Nat)
  | noLeads (employeeId : Nat)
  | counts (employeeId assigned skipped : Nat)
deriving Repr, DecidableEq

/-- Response and effect of `/leads/assign/manual-map`: the per-entry results,
the totals, the store after all writes, and the leads written in save
order. -/
structure ManualResult where
  results : List EntryResult
  totalAssigned : Nat
  totalSkipped : Nat
  store : List Lead
  writes : List Lead
deriving Repr, DecidableEq

/-- The per-lead `isAuth` test of the manual-map entry loop (this one uses a
`Set` of id strings, so membership is genuinely by value). -/
def manualEntryAuth (callerId : Nat) (teamIds : List Nat) (l : Lead) : Bool :=
  l.createdBy == callerId || l.assignedTo.isNone || optMem teamIds l.assignedTo

/-- The `for (const a of assignments)` loop of `/leads/assign/manual-map`.
Each entry re-reads the store (`Lead.find`), so later entries see earlier
writes; the store is threaded through. -/
def manualMapLoop (callerId : Nat) (teamIds : List Nat) :
    List Lead → List MapEntry → ManualResult
  | store, [] => ⟨[], 0, 0, store, []⟩
  | store, e :: rest =>
    if ¬ teamIds.contains e.employeeId then
      let r := manualMapLoop callerId teamIds store rest
      ⟨.err e.employeeId :: r.results, r.totalAssigned, r.totalSkipped,
        r.store, r.writes⟩
    else if e.leadIds.isEmpty then
      let r := manualMapLoop callerId teamIds store rest
      ⟨.noLeads e.employeeId :: r.results, r.totalAssigned, r.totalSkipped,
        r.store, r.writes⟩
    else
      let found := store.filter (fun l => e.leadIds.contains l.id)
      let auth := found.filter (manualEntryAuth callerId teamIds)
      let ws := auth.map (fun l => { l with assignedTo := some e.employeeId })
      let a := auth.length
      let s := found.length - auth.length
      let store2 := store.map (fun l =>
        if e.leadIds.contains l.id && manualEntryAuth callerId teamIds l then
          { l with assignedTo := some e.employeeId }
        else l)
      let r := manualMapLoop callerId teamIds store2 rest
      ⟨.counts e.employeeId a s :: r.results, a + r.totalAssigned,
        s + r.totalSkipped, r.store, ws ++ r.writes⟩

/-- POST /api/manager/leads/assign/manual-map (routes/manager.js). -/
def manualMapRoute (callerId : Nat) (users : List User) (leads : List Lead)
    (assignments : List MapEntry) : Except Err ManualResult :=
  if assignments.isEmpty then
    .error ⟨400, "assignments array is required"⟩
  else
    manualMapLoop callerId (teamOf callerId users) leads assignments |> .ok

/-- The Mongo "due for reassignment" query of `reassignLeads`: status `Hot`
or `Lost` with `reassignmentDate <= now` (`$lte` never matches a missing
field), and under the caller (created by them or assigned to a team
member). -/
def dueForReassignment (managerId : Nat) (teamIds : List Nat) (now : Int)
    (l : Lead) : Bool :=
  ((l.status == "Hot" || l.status == "Lost") &&
    (match l.reassignmentDate with
     | some d => d ≤ now
     | none => false)) &&
  (l.createdBy == managerId || optMem teamIds l.assignedTo)

/-- Outcome of the `for (const lead of leadsToReassign)` loop: either it ran
to completion, or `currentEmployeeId.toString()` raised a `TypeError` on a
lead with no `assignedTo`; in both cases the leads saved before that point
are listed in save order. -/
inductive ReassignLoopOut where
  | ok (writes : List Lead)
  | thrown (writes : List Lead)
deriving Repr, DecidableEq

/-- The write made for one reassigned lead: append the outgoing assignee and
current status to `previousAssignments`, set the new assignee, clear
`reassignmentDate`. -/
def reassignPatch (l : Lead) (cur newEmp : Nat) (now : Int) : Lead :=
  { l with
    previousAssignments := l.previousAssignments ++ [⟨some cur, now, l.status⟩],
    assignedTo := some newEmp,
    reassignmentDate := none }

/-- Whether the reassignment loop has an alternative employee for a lead:
the team minus the lead's current assignee is non-empty. -/
def hasAlt (teamIds : List Nat) (l : Lead) : Bool :=
  match l.assignedTo with
  | some cur => !(teamIds.filter (fun e => e != cur)).isEmpty
  | none => false

/-- The reassignment loop body of `reassignLeads` (unnamed/part_010).  For a
lead with an assignee, the replacement pool is the team minus the current
assignee; if the pool is empty nothing happens (no save, no record),
otherwise a random pool member is chosen, the outgoing assignee and status
are appended to `previousAssignments`, the lead is reassigned and its
`reassignmentDate` cleared, and it is saved.  A lead with no `assignedTo`
raises before anything else in its iteration. -/
def reassignLoop (teamIds : List Nat) (now : Int) (rand : Nat → Nat) :
    List Lead → Nat → ReassignLoopOut
  | [], _ => .ok []
  | l :: ls, k =>
    match l.assignedTo with
    | none => .thrown []
    | some cur =>
      let avail := teamIds.filter (fun e => e != cur)
      if avail.isEmpty then
        reassignLoop teamIds now rand ls k
      else
        let newEmp := avail.getD (rand k % avail.length) 0
        let w := reassignPatch l cur newEmp now
        match reassignLoop teamIds now rand ls (k + 1) with
        | .ok ws => .ok (w :: ws)
        | .thrown ws => .thrown (w :: ws)

/-- Success payload of POST /api/manager/reassign-leads: either the
`'No leads need reassignment'` message or the reassigned count (the response
carries no skip or error list). -/
inductive ReassignResp where
  | noneDue
  | done (reassignedCount : Nat)
deriving Repr, DecidableEq

/-- POST /api/manager/reassign-leads (unnamed/part_010, `reassignLeads`).
Returns the response — a thrown `TypeError` is converted by the
`catch` into a 500 failure — paired with the leads written before the
handler returned. -/
def reassignRoute (managerId : Nat) (users : List User) (leads : List Lead)
    (now : Int) (rand : Nat → Nat) : Except Err ReassignResp × List Lead :=
  let teamIds := teamOf managerId users
  if teamIds.isEmpty then
    (.error ⟨400, "No employees found under your management"⟩, [])
  else
    let due := leads.filter (dueForReassignment managerId teamIds now)
    if due.isEmpty then
      (.ok .noneDue, [])
    else
      match reassignLoop teamIds now rand due 0 with
      | .ok ws => (.ok (.done ws.length), ws)
      | .thrown ws => (.error ⟨500, "Failed to reassign leads"⟩, ws)

/-- DELETE lead (controllers/managerController.js, `deleteLead`).  `id = none`
models a string rejected by `ObjectId.isValid`.  Returns the response status
and message plus the lead store after the call; `findByIdAndDelete` is
unconditional once the id is valid and found. -/
def deleteLead (id : Option Nat) (leads : List Lead) :
    (Nat × String) × List Lead :=
  match id with
  | none => ((400, "Invalid lead id"), leads)
  | some i =>
    match leads.find? (fun l => l.id == i) with
    | none => ((404, "Lead not found"), leads)
    | some _ => ((200, "Lead deleted"), leads.filter (fun l => !(l.id == i)))

/-- A call-log record's reference to its lead (models/CallLog.js `lead`
field); only the reference matters for the deletion claim. -/
structure CallLogRef where
  id : Nat
  lead : Nat
deriving Repr, DecidableEq

/-- A lead assigned to employee 7, created by manager 3, used to instantiate
the hypotheses of the general theorems on concrete inputs. -/
def baseLead : Lead :=
  { id := 1, status := "New", notes := none, followUpDate := none,
    sellingPrice := none, lossReason := none, deadLeadReason := none,
    deadLeadDate := none, reassignmentDate := none, assignedTo := some 7,
    createdBy := 3, createdAt := 0, previousAssignments := [] }

/-- Claim C10: on the employee update path, every successful status update
leaves `previousAssignments` unchanged — the history-append branch requires
`lead.assignedTo` to differ from the acting employee's id, but the preceding
403 authorization check already rejected exactly those requests, so no
employee-initiated transition records an `AssignmentHistoryEntry`. -/
theorem updateLeadNotes_preserves_previousAssignments
    (userId : Nat) (lead : Lead) (note : Option String) (status : Option String)
    (fud : DateStr) (now today : Int) (l' : Lead)
    (h : updateLeadNotes userId lead note status fud now today = .ok l') :
    l'.previousAssignments = lead.previousAssignments := by
  unfold updateLeadNotes at h
  split at h
  · exact Except.noConfusion h
  next ha =>
    have ha' : lead.assignedTo = some userId := not_ne_iff.mp ha
    have h1 : histCondEmp lead.assignedTo userId = false := by
      simp [histCondEmp, ha']
    cases note <;> cases status <;>
      simp only [h1, Bool.false_eq_true, if_false] at h
    all_goals (repeat' split at h) <;>
      first
        | exact Except.noConfusion h
        | (cases h; rfl)

/-- Result of the manager-path Hot transition on `baseLead`: the catch-all
branch clears `reassignmentDate` instead of scheduling reassignment (the body
omits `assignedTo`, so the history branch fires and logs the outgoing
assignee). -/
def c1HotResult : Lead :=
  { baseLead with
    status := "Hot",
    previousAssignments := [⟨some 7, 1000, "New"⟩] }

/-- Counterexample to claim C1 as stated: a successful manager-path
transition to `Hot` leaves `reassignmentDate` unset — `updateLeadStatus`
only schedules reassignment in its `Lost` branch, and `Hot` falls into the
catch-all branch that clears it — contradicting
`reassignmentDate = now + 14 days` for every Hot/Lost transition. -/
theorem c1_mgr_hot_clears_reassignment :
    updateLeadStatus 3 [7] baseLead "Hot" none none none none 1000 =
      .ok c1HotResult ∧
    c1HotResult.reassignmentDate = none ∧
    (none : Option Int) ≠ some (1000 + twoWeeksMs) :=
  ⟨by decide, by decide, by decide⟩

/-- Fields written by a successful employee-path Hot transition. -/
lemma updateLeadNotes_hot_fields
    (userId : Nat) (lead : Lead) (note : Option String) (fud : DateStr)
    (now today : Int) (l' : Lead)
    (h : updateLeadNotes userId lead note (some "Hot") fud now today = .ok l') :
    l'.reassignmentDate = some (now + twoWeeksMs) ∧ l'.followUpDate = none := by
  unfold updateLeadNotes at h
  (repeat' split at h) <;>
    first
      | exact Except.noConfusion h
      | (cases h; exact ⟨rfl, rfl⟩)
      | exact absurd ‹"Hot" = "Follow-up"› (by decide)
      | exact absurd rfl ‹¬"Hot" = "Hot"›

/-- Fields written by a successful employee-path Lost transition: it lands in
the catch-all branch, which clears `reassignmentDate`. -/
lemma updateLeadNotes_lost_fields
    (userId : Nat) (lead : Lead) (note : Option String) (fud : DateStr)
    (now today : Int) (l' : Lead)
    (h : updateLeadNotes userId lead note (some "Lost") fud now today = .ok l') :
    l'.reassignmentDate = none ∧ l'.followUpDate = none := by
  unfold updateLeadNotes at h
  (repeat' split at h) <;>
    first
      | exact Except.noConfusion h
      | (cases h; exact ⟨rfl, rfl⟩)
      | exact absurd ‹"Lost" = "Follow-up"› (by decide)
      | exact absurd ‹"Lost" = "Hot"› (by decide)

/-- Fields written by a successful manager-path Lost transition. -/
lemma updateLeadStatus_lost_fields
    (managerId : Nat) (employeeIds : List Nat) (lead : Lead)
    (reqAssign : Option Nat) (mfud msp : Option Int) (mlr : Option String)
    (now : Int) (l' : Lead)
    (h : updateLeadStatus managerId employeeIds lead "Lost" reqAssign mfud
      msp mlr now = .ok l') :
    l'.reassignmentDate = some (now + twoWeeksMs) ∧ l'.followUpDate = none := by
  unfold updateLeadStatus at h
  (repeat' split at h) <;>
    first
      | exact Except.noConfusion h
      | (cases h; exact ⟨rfl, rfl⟩)
      | exact absurd ‹"Lost" = ""› (by decide)
      | exact absurd ‹"Lost" = "Follow-up"› (by decide)
      | exact absurd ‹"Lost" = "Won"› (by decide)
      | exact absurd rfl ‹¬"Lost" = "Lost"›

/-- Fields written by a successful manager-path Hot transition: it lands in
the catch-all branch, which clears `reassignmentDate`. -/
lemma updateLeadStatus_hot_fields
    (managerId : Nat) (employeeIds : List Nat) (lead : Lead)
    (reqAssign : Option Nat) (mfud msp : Option Int) (mlr : Option String)
    (now : Int) (l' : Lead)
    (h : updateLeadStatus managerId employeeIds lead "Hot" reqAssign mfud
      msp mlr now = .ok l') :
    l'.reassignmentDate = none ∧ l'.followUpDate = none := by
  unfold updateLeadStatus at h
  (repeat' split at h) <;>
    first
      | exact Except.noConfusion h
      | (cases h; exact ⟨rfl, rfl⟩)
      | exact absurd ‹"Hot" = ""› (by decide)
      | exact absurd ‹"Hot" = "Follow-up"› (by decide)
      | exact absurd ‹"Hot" = "Won"› (by decide)
      | exact absurd ‹"Hot" = "Lost"› (by decide)

/-- Claim C1 amended: the 14-day reassignment window is path-dependent.  On
the employee path (`updateLeadNotes`) a successful transition to `Hot` sets
`reassignmentDate = now + 14 days` and clears `followUpDate`, while `Lost`
clears both; on the manager path (`updateLeadStatus`) a successful transition
to `Lost` sets `reassignmentDate = now + 14 days` and clears `followUpDate`,
while `Hot` clears both. -/
theorem statusTransition_reassignment_window
    (userId : Nat) (lead : Lead) (note : Option String) (fud : DateStr)
    (now today : Int) (managerId : Nat) (employeeIds : List Nat)
    (lead2 : Lead) (reqAssign : Option Nat) (mfud msp : Option Int)
    (mlr : Option String) (now2 : Int) (e1 e2 m1 m2 : Lead)
    (hE1 : updateLeadNotes userId lead note (some "Hot") fud now today = .ok e1)
    (hE2 : updateLeadNotes userId lead note (some "Lost") fud now today = .ok e2)
    (hM1 : updateLeadStatus managerId employeeIds lead2 "Lost" reqAssign mfud
      msp mlr now2 = .ok m1)
    (hM2 : updateLeadStatus managerId employeeIds lead2 "Hot" reqAssign mfud
      msp mlr now2 = .ok m2) :
    (e1.reassignmentDate = some (now + twoWeeksMs) ∧ e1.followUpDate = none) ∧
    (e2.reassignmentDate = none ∧ e2.followUpDate = none) ∧
    (m1.reassignmentDate = some (now2 + twoWeeksMs) ∧ m1.followUpDate = none) ∧
    (m2.reassignmentDate = none ∧ m2.followUpDate = none) :=
  ⟨updateLeadNotes_hot_fields userId lead note fud now today e1 hE1,
   updateLeadNotes_lost_fields userId lead note fud now today e2 hE2,
   updateLeadStatus_lost_fields managerId employeeIds lead2 reqAssign mfud
     msp mlr now2 m1 hM1,
   updateLeadStatus_hot_fields managerId employeeIds lead2 reqAssign mfud
     msp mlr now2 m2 hM2⟩

/-- Result of the employee-path Hot transition on `baseLead`. -/
def c1EmpHot : Lead :=
  { baseLead with status := "Hot", reassignmentDate := some (100 + twoWeeksMs) }

/-- Result of the employee-path Lost transition on `baseLead`. -/
def c1EmpLost : Lead :=
  { baseLead with status := "Lost" }

/-- Result of the manager-path Lost transition on `baseLead`. -/
def c1MgrLost : Lead :=
  { baseLead with
    status := "Lost",
    lossReason := some "no budget",
    reassignmentDate := some (1000 + twoWeeksMs),
    previousAssignments := [⟨some 7, 1000, "New"⟩] }

/-- Witness for the amended claim C1 on concrete transitions of `baseLead`. -/
theorem statusTransition_reassignment_window_witness :
    (c1EmpHot.reassignmentDate = some (100 + twoWeeksMs) ∧
      c1EmpHot.followUpDate = none) ∧
    (c1EmpLost.reassignmentDate = none ∧ c1EmpLost.followUpDate = none) ∧
    (c1MgrLost.reassignmentDate = some (1000 + twoWeeksMs) ∧
      c1MgrLost.followUpDate = none) ∧
    (c1HotResult.reassignmentDate = none ∧ c1HotResult.followUpDate = none) :=
  statusTransition_reassignment_window 7 baseLead none DateStr.absent 100 0
    3 [7] baseLead none none none (some "no budget") 1000
    c1EmpHot c1EmpLost c1MgrLost c1HotResult
    (by decide) (by decide) (by decide) (by decide)

/-- The result of the concrete C10 witness update below. -/
def c10After : Lead :=
  { baseLead with status := "Interested" }

/-- Witness for claim C10: a concrete successful employee status update (to
`Interested`) whose result keeps the empty `previousAssignments` array. -/
theorem updateLeadNotes_preserves_previousAssignments_witness :
    updateLeadNotes 7 baseLead none (some "Interested") DateStr.absent 5 0 =
      .ok c10After ∧
    c10After.previousAssignments = baseLead.previousAssignments :=
  ⟨by decide,
   updateLeadNotes_preserves_previousAssignments 7 baseLead none
     (some "Interested") DateStr.absent 5 0 _ (by decide)⟩

/-- A `Lost` lead with a recorded loss reason, used for the C2 and C8
concrete transitions. -/
def lostLead : Lead :=
  { baseLead with
    status := "Lost",
    lossReason := some "no budget",
    reassignmentDate := some 50 }

/-- Result of the manager-path Follow-up transition on `baseLead` with the
past date 0. -/
def c8PastResult : Lead :=
  { baseLead with
    status := "Follow-up",
    followUpDate := some 0,
    previousAssignments := [⟨some 7, 1000, "New"⟩] }

/-- Counterexample to claim C8 as stated: the manager path performs no
past-date check, so a Follow-up request made at time 1000 carrying the
long-past date 0 succeeds and stores it, instead of failing with a past-date
validation error. -/
theorem c8_mgr_accepts_past_date :
    updateLeadStatus 3 [7] baseLead "Follow-up" none (some 0) none none 1000 =
      .ok c8PastResult ∧
    c8PastResult.followUpDate = some 0 ∧ (0 : Int) < 1000 :=
  ⟨by decide, by decide, by decide⟩

/-- Claim C8 amended: only the employee path validates the follow-up date.
On the employee path an authorized Follow-up request whose date parses to a
time before start-of-today fails with the past-date error (and, the handler
returning before `save()`, the stored lead is unchanged); on the manager
path an authorized Follow-up request with any parseable date — past or not —
succeeds and stores it. -/
theorem followup_past_date_validation
    (userId : Nat) (lead : Lead) (note : Option String) (t now today : Int)
    (hauth : lead.assignedTo = some userId) (ht : t < today)
    (managerId : Nat) (employeeIds : List Nat) (lead2 : Lead)
    (msp : Option Int) (mlr : Option String) (t2 now2 : Int)
    (hauth2 : lead2.createdBy = managerId) :
    updateLeadNotes userId lead note (some "Follow-up") (.valid t) now today =
      .error ⟨400, "Follow-up date cannot be in the past"⟩ ∧
    updateLeadStatus managerId employeeIds lead2 "Follow-up" none (some t2)
        msp mlr now2 =
      .ok { mgrHistApply lead2 none now2 with
            status := "Follow-up", followUpDate := some t2,
            reassignmentDate := none } := by
  constructor
  · unfold updateLeadNotes
    (repeat' split) <;>
      first
        | rfl
        | exact absurd hauth ‹lead.assignedTo ≠ some userId›
        | exact absurd rfl ‹¬"Follow-up" = "Follow-up"›
        | exact absurd ht ‹¬t < today›
        | omega
        | (simp_all [DateStr.clean]; try omega)
  · unfold updateLeadStatus
    rw [if_neg (not_not_intro (Or.inr hauth2))]
    rfl

/-- Witness for the amended claim C8: employee 7 requests Follow-up for
`baseLead` with date `-5` before start-of-today `0` and is rejected, while
manager 3 stores the same past date on the manager path. -/
theorem followup_past_date_validation_witness :
    updateLeadNotes 7 baseLead none (some "Follow-up") (.valid (-5)) 1000 0 =
      .error ⟨400, "Follow-up date cannot be in the past"⟩ ∧
    updateLeadStatus 3 [7] baseLead "Follow-up" none (some (-5))
        none none 1000 =
      .ok { mgrHistApply baseLead none 1000 with
            status := "Follow-up", followUpDate := some (-5),
            reassignmentDate := none } :=
  followup_past_date_validation 7 baseLead none (-5) 1000 0 rfl (by decide)
    3 [7] baseLead none none (-5) 1000 rfl

/-- `mgrHistApply` only touches `previousAssignments`: `lossReason` survives. -/
lemma mgrHistApply_lossReason (l : Lead) (r : Option Nat) (n : Int) :
    (mgrHistApply l r n).lossReason = l.lossReason := by
  unfold mgrHistApply; split <;> rfl

/-- `mgrHistApply` only touches `previousAssignments`: `deadLeadReason`
survives. -/
lemma mgrHistApply_deadLeadReason (l : Lead) (r : Option Nat) (n : Int) :
    (mgrHistApply l r n).deadLeadReason = l.deadLeadReason := by
  unfold mgrHistApply; split <;> rfl

/-- `mgrHistApply` only touches `previousAssignments`: `deadLeadDate`
survives. -/
lemma mgrHistApply_deadLeadDate (l : Lead) (r : Option Nat) (n : Int) :
    (mgrHistApply l r n).deadLeadDate = l.deadLeadDate := by
  unfold mgrHistApply; split <;> rfl

/-- Result of the manager-path Lost-to-Won transition on `lostLead`. -/
def c2WonResult : Lead :=
  { lostLead with
    status := "Won",
    sellingPrice := some 500,
    reassignmentDate := none,
    previousAssignments := [⟨some 7, 1000, "Lost"⟩] }

/-- Counterexample to claim C2 as stated: a successful manager-path
transition from `Lost` to `Won` stores `sellingPrice` but leaves the old
`lossReason` behind, so two conditional field groups are populated at once
and the populated set does not match the `Won` status. -/
theorem c2_won_keeps_lossReason :
    updateLeadStatus 3 [7] lostLead "Won" none none (some 500) none 1000 =
      .ok c2WonResult ∧
    c2WonResult.status = "Won" ∧
    c2WonResult.sellingPrice = some 500 ∧
    c2WonResult.lossReason = some "no budget" :=
  ⟨by decide, by decide, by decide, by decide⟩

/-- Claim C2 amended: the conditional field groups are not kept mutually
exclusive.  A successful manager-path transition to `Won` stores the selling
price and clears only `followUpDate` and `reassignmentDate`, leaving
`lossReason` and the dead-lead fields as they were; a successful manager-path
transition to `Dead` takes the catch-all branch, clearing
`followUpDate`/`reassignmentDate`/`sellingPrice`/`lossReason` but never
writing `deadLeadReason` or `deadLeadDate` (no path of either handler ever
sets them). -/
theorem conditional_fields_after_transition
    (managerId : Nat) (employeeIds : List Nat) (lead lead2 : Lead)
    (reqAssign reqAssign2 : Option Nat) (mfud msp mfud2 msp2 : Option Int)
    (mlr mlr2 : Option String) (now now2 : Int) (w d : Lead)
    (hW : updateLeadStatus managerId employeeIds lead "Won" reqAssign mfud
      msp mlr now = .ok w)
    (hD : updateLeadStatus managerId employeeIds lead2 "Dead" reqAssign2 mfud2
      msp2 mlr2 now2 = .ok d) :
    (w.sellingPrice = msp ∧ w.followUpDate = none ∧
      w.reassignmentDate = none ∧ w.lossReason = lead.lossReason ∧
      w.deadLeadReason = lead.deadLeadReason ∧
      w.deadLeadDate = lead.deadLeadDate) ∧
    (d.followUpDate = none ∧ d.reassignmentDate = none ∧
      d.sellingPrice = none ∧ d.lossReason = none ∧
      d.deadLeadReason = lead2.deadLeadReason ∧
      d.deadLeadDate = lead2.deadLeadDate) := by
  constructor
  · unfold updateLeadStatus at hW
    (repeat' split at hW) <;>
      first
        | exact Except.noConfusion hW
        | (cases hW; exact ⟨rfl, rfl, rfl, mgrHistApply_lossReason _ _ _,
            mgrHistApply_deadLeadReason _ _ _, mgrHistApply_deadLeadDate _ _ _⟩)
        | exact absurd ‹"Won" = ""› (by decide)
        | exact absurd ‹"Won" = "Follow-up"› (by decide)
        | exact absurd rfl ‹¬"Won" = "Won"›
  · unfold updateLeadStatus at hD
    (repeat' split at hD) <;>
      first
        | exact Except.noConfusion hD
        | (cases hD; exact ⟨rfl, rfl, rfl, rfl,
            mgrHistApply_deadLeadReason _ _ _, mgrHistApply_deadLeadDate _ _ _⟩)
        | exact absurd ‹"Dead" = ""› (by decide)
        | exact absurd ‹"Dead" = "Follow-up"› (by decide)
        | exact absurd ‹"Dead" = "Won"› (by decide)
        | exact absurd ‹"Dead" = "Lost"› (by decide)

/-- Result of the manager-path Dead transition on `baseLead`: no dead-lead
reason or date is recorded. -/
def c2DeadResult : Lead :=
  { baseLead with
    status := "Dead",
    previousAssignments := [⟨some 7, 1000, "New"⟩] }

/-- Witness for the amended claim C2 on concrete Won and Dead transitions. -/
theorem conditional_fields_after_transition_witness :
    (c2WonResult.sellingPrice = some 500 ∧ c2WonResult.followUpDate = none ∧
      c2WonResult.reassignmentDate = none ∧
      c2WonResult.lossReason = lostLead.lossReason ∧
      c2WonResult.deadLeadReason = lostLead.deadLeadReason ∧
      c2WonResult.deadLeadDate = lostLead.deadLeadDate) ∧
    (c2DeadResult.followUpDate = none ∧ c2DeadResult.reassignmentDate = none ∧
      c2DeadResult.sellingPrice = none ∧ c2DeadResult.lossReason = none ∧
      c2DeadResult.deadLeadReason = baseLead.deadLeadReason ∧
      c2DeadResult.deadLeadDate = baseLead.deadLeadDate) :=
  conditional_fields_after_transition 3 [7] lostLead baseLead none none
    none (some 500) none none none none 1000 1000 c2WonResult c2DeadResult
    (by decide) (by decide)

/-- A call log recorded against `baseLead` (lead id 1). -/
def depLog : CallLogRef := ⟨0, 1⟩

/-- Counterexample to claim C9 as stated: `deleteLead` never consults the
call-log (or pipeline) collections — with a call log referencing lead 1 on
record, deleting lead 1 still succeeds and removes it from the store instead
of being refused. -/
theorem c9_delete_ignores_dependents :
    [depLog].countP (fun c => c.lead == 1) = 1 ∧
    deleteLead (some 1) [baseLead] = ((200, "Lead deleted"), []) :=
  ⟨by decide, by decide⟩

/-- Claim C9 amended: `deleteLead` hard-deletes unconditionally.  Once the id
is syntactically valid and a matching lead exists, the lead is removed and
the call answers 200, regardless of how many call-log or pipeline records
reference it (the handler never queries them); only an invalid id (400) or a
missing lead (404) is refused. -/
theorem deleteLead_unconditional
    (i : Nat) (leads : List Lead) (lead : Lead) (logs : List CallLogRef)
    (hfind : leads.find? (fun l => l.id == i) = some lead)
    (hdep : 0 < logs.countP (fun c => c.lead == i)) :
    deleteLead (some i) leads =
      ((200, "Lead deleted"), leads.filter (fun l => !(l.id == i))) := by
  unfold deleteLead
  simp only [hfind]

/-- Witness for the amended claim C9: lead 1 exists and has a dependent call
log, and the delete still removes it. -/
theorem deleteLead_unconditional_witness :
    deleteLead (some 1) [baseLead] =
      ((200, "Lead deleted"), [baseLead].filter (fun l => !(l.id == 1))) :=
  deleteLead_unconditional 1 [baseLead] baseLead [depLog] (by decide)
    (by decide)

/-- An element fetched with `getD` at an in-range index (`n % length`) is a
member of the list. -/
lemma mem_getD_mod (xs : List Nat) (n : Nat) (h : xs ≠ []) :
    xs.getD (n % xs.length) 0 ∈ xs := by
  have hlen : 0 < xs.length := List.length_pos.mpr h
  have hlt : n % xs.length < xs.length := Nat.mod_lt _ hlen
  rw [List.getD_eq_getElem _ _ hlt]
  exact List.getElem_mem hlt

lemma reassignLoop_ok_spec (teamIds : List Nat) (now : Int) (rand : Nat → Nat) :
    ∀ (ls : List Lead) (k : Nat) (ws : List Lead),
      reassignLoop teamIds now rand ls k = .ok ws →
      (∀ w ∈ ws, ∃ l ∈ ls, ∃ cur e, l.assignedTo = some cur ∧
         e ∈ teamIds ∧ e ≠ cur ∧ w = reassignPatch l cur e now) ∧
      ws.length = ls.countP (hasAlt teamIds) := by
  intro ls
  induction ls with
  | nil =>
    intro k ws h
    unfold reassignLoop at h
    injection h with h
    subst h
    exact ⟨by simp, by simp⟩
  | cons l ls ih =>
    intro k ws h
    unfold reassignLoop at h
    cases hassign : l.assignedTo with
    | none =>
      rw [hassign] at h
      exact ReassignLoopOut.noConfusion h
    | some cur =>
      rw [hassign] at h
      simp only [] at h
      by_cases hav : (teamIds.filter (fun e => e != cur)).isEmpty
      · rw [if_pos hav] at h
        obtain ⟨h1, h2⟩ := ih k ws h
        refine ⟨?_, ?_⟩
        · intro w hw
          obtain ⟨l0, hl0, rest⟩ := h1 w hw
          exact ⟨l0, List.mem_cons_of_mem _ hl0, rest⟩
        · rw [List.countP_cons]
          have hfalse : hasAlt teamIds l = false := by
            simp [hasAlt, hassign, hav]
          rw [hfalse]
          simpa using h2
      · rw [if_neg hav] at h
        cases hrec : reassignLoop teamIds now rand ls (k + 1) with
        | thrown ws1 =>
          rw [hrec] at h
          exact ReassignLoopOut.noConfusion h
        | ok ws1 =>
          rw [hrec] at h
          injection h with h
          subst h
          obtain ⟨h1, h2⟩ := ih (k + 1) ws1 hrec
          have hne : teamIds.filter (fun e => e != cur) ≠ [] := by
            intro hcon
            rw [hcon] at hav
            exact hav rfl
          have hmem : (teamIds.filter (fun e => e != cur)).getD
              (rand k % (teamIds.filter (fun e => e != cur)).length) 0 ∈
              teamIds.filter (fun e => e != cur) :=
            mem_getD_mod _ _ hne
          obtain ⟨hmemT, hneq⟩ := List.mem_filter.mp hmem
          refine ⟨?_, ?_⟩
          · intro w hw
            rcases List.mem_cons.mp hw with hweq | hwmem
            · refine ⟨l, List.mem_cons_self _ _, cur, _, hassign, hmemT, ?_, hweq⟩
              simpa using hneq
            · obtain ⟨l0, hl0, rest⟩ := h1 w hwmem
              exact ⟨l0, List.mem_cons_of_mem _ hl0, rest⟩
          · rw [List.countP_cons]
            have htrue : hasAlt teamIds l = true := by
              simp [hasAlt, hassign]
              exact ⟨_, hmemT, by simpa using hneq⟩
            rw [htrue]
            simp [h2]

/-- Claim C4 amended: every lead written by a completed reassign-leads run
was given a replacement chosen from the manager's team excluding its current
assignee; a due lead whose only possible replacement set is empty is passed
over silently — it keeps its current assignment, is not written, and the
response records only the count of reassigned leads (there is no skip
record). -/
theorem reassign_replacement_policy
    (managerId : Nat) (users : List User) (leads : List Lead) (now : Int)
    (rand : Nat → Nat) (c : Nat) (ws : List Lead)
    (h : reassignRoute managerId users leads now rand = (.ok (.done c), ws)) :
    (∀ w ∈ ws, ∃ l ∈ leads.filter
        (dueForReassignment managerId (teamOf managerId users) now),
      ∃ cur e, l.assignedTo = some cur ∧ e ∈ teamOf managerId users ∧
        e ≠ cur ∧ w = reassignPatch l cur e now) ∧
    c = ws.length ∧
    ws.length = (leads.filter (dueForReassignment managerId
        (teamOf managerId users) now)).countP
        (hasAlt (teamOf managerId users)) := by
  simp only [reassignRoute] at h
  by_cases hteam : (teamOf managerId users).isEmpty
  · rw [if_pos hteam] at h
    simp at h
  · rw [if_neg hteam] at h
    by_cases hdue : (leads.filter (dueForReassignment managerId
        (teamOf managerId users) now)).isEmpty
    · rw [if_pos hdue] at h
      simp at h
    · rw [if_neg hdue] at h
      cases hloop : reassignLoop (teamOf managerId users) now rand
          (leads.filter (dueForReassignment managerId
            (teamOf managerId users) now)) 0 with
      | thrown ws1 =>
        rw [hloop] at h
        simp at h
      | ok ws1 =>
        rw [hloop] at h
        simp only [Prod.mk.injEq, Except.ok.injEq] at h
        obtain ⟨hresp, hws⟩ := h
        cases hresp
        subst hws
        obtain ⟨h1, h2⟩ := reassignLoop_ok_spec (teamOf managerId users) now
          rand _ 0 ws1 hloop
        exact ⟨h1, rfl, h2⟩

/-- A one-employee team under manager 3. -/
def c4Users : List User := [⟨7, some 3⟩]

/-- A due Hot lead assigned to employee 7 (reassignment date long past). -/
def c4DueLead : Lead :=
  { baseLead with status := "Hot", reassignmentDate := some 10 }

/-- Counterexample to claim C4 as stated: with team `[7]` and the due lead
assigned to employee 7, the team minus the current assignee is empty; the
claim says the lead is then left unassigned and the outcome recorded as a
skip, but the run writes nothing (the lead keeps `assignedTo = 7` and its
stale `reassignmentDate`) and the response is only a count of zero, with no
skip record of any kind. -/
theorem c4_no_alternative_is_silent :
    reassignRoute 3 c4Users [c4DueLead] 1000 (fun _ => 0) =
      (.ok (.done 0), []) ∧
    c4DueLead.assignedTo = some 7 ∧
    dueForReassignment 3 (teamOf 3 c4Users) 1000 c4DueLead = true :=
  ⟨by decide, by decide, by decide⟩

/-- A two-employee team under manager 3. -/
def twoEmpUsers : List User := [⟨7, some 3⟩, ⟨8, some 3⟩]

/-- Witness for the amended claim C4: with team `[7, 8]` the due lead held
by 7 is reassigned (to 8), and the write/count bookkeeping matches. -/
theorem reassign_replacement_policy_witness :
    (1 : Nat) = [reassignPatch c4DueLead 7 8 1000].length ∧
    [reassignPatch c4DueLead 7 8 1000].length =
      ([c4DueLead].filter (dueForReassignment 3 (teamOf 3 twoEmpUsers)
        1000)).countP (hasAlt (teamOf 3 twoEmpUsers)) :=
  (reassign_replacement_policy 3 twoEmpUsers [c4DueLead] 1000 (fun _ => 0) 1
    [reassignPatch c4DueLead 7 8 1000] (by decide)).2

/-- A due Lost lead with no `assignedTo`: reachable because the due query
also selects leads merely created by the manager, which need never have been
assigned. -/
def c7Crasher : Lead :=
  { baseLead with
    id := 2,
    status := "Lost",
    lossReason := some "never reached",
    reassignmentDate := some 10,
    assignedTo := none }

/-- A second due lead, fully reassignable, queued after the crasher. -/
def c7Due2 : Lead :=
  { baseLead with id := 3, status := "Hot", reassignmentDate := some 10 }

/-- Claim C7, failing input: `reassignLeads` dereferences
`currentEmployeeId.toString()` without a null guard, so the due lead with no
`assignedTo` raises a `TypeError`; the catch converts it into an overall 500
failure, processing of the remaining due leads (here the reassignable lead 3)
is aborted, and no skip accounting happens — the opposite of per-item
failure isolation. -/
theorem c7_reassign_aborts_on_missing_assignee :
    reassignRoute 3 twoEmpUsers [c7Crasher, c7Due2] 1000 (fun _ => 0) =
      (.error ⟨500, "Failed to reassign leads"⟩, []) ∧
    dueForReassignment 3 (teamOf 3 twoEmpUsers) 1000 c7Due2 = true ∧
    hasAlt (teamOf 3 twoEmpUsers) c7Due2 = true :=
  ⟨by decide, by decide, by decide⟩

/-- The written lead's assignee is an employee of the calling manager. -/
def underManager (users : List User) (callerId : Nat) (w : Lead) : Prop :=
  ∃ u ∈ users, u.manager = some callerId ∧ w.assignedTo = some u.id

lemma mem_teamOf (callerId : Nat) (users : List User) (e : Nat)
    (h : e ∈ teamOf callerId users) :
    ∃ u ∈ users, u.manager = some callerId ∧ u.id = e := by
  unfold teamOf at h
  obtain ⟨u, hu, rfl⟩ := List.mem_map.mp h
  obtain ⟨hu1, hu2⟩ := List.mem_filter.mp hu
  exact ⟨u, hu1, by simpa using hu2, rfl⟩

lemma rrAssign_writes (teamIds : List Nat) (hne : teamIds ≠ []) :
    ∀ (ls : List Lead) (i : Nat), ∀ w ∈ (rrAssign teamIds ls i).2.2,
      ∃ e ∈ teamIds, w.assignedTo = some e := by
  intro ls
  induction ls with
  | nil => intro i w hw; simp [rrAssign] at hw
  | cons l ls ih =>
    intro i w hw
    simp only [rrAssign] at hw
    split at hw
    · exact ih (i + 1) w hw
    · rcases List.mem_cons.mp hw with rfl | hwm
      · exact ⟨teamIds.getD (i % teamIds.length) 0,
          mem_getD_mod teamIds i hne, rfl⟩
      · exact ih (i + 1) w hwm

lemma giveToEmp_writes (emp : Nat) (k : Nat) (ls : List Lead) :
    ∀ w ∈ (giveToEmp emp k ls).2.2.1, w.assignedTo = some emp := by
  induction ls generalizing k with
  | nil => intro w hw; simp [giveToEmp] at hw
  | cons l ls ih =>
    intro w hw
    simp only [giveToEmp] at hw
    split at hw
    · simp at hw
    · split at hw
      · exact ih k w hw
      · rcases List.mem_cons.mp hw with rfl | hwm
        · rfl
        · exact ih (k - 1) w hwm

lemma cappedAssign_writes (per : Nat) (team : List Nat) :
    ∀ (ls : List Lead), ∀ w ∈ (cappedAssign per team ls).2.2,
      ∃ e ∈ team, w.assignedTo = some e := by
  induction team with
  | nil => intro ls w hw; simp [cappedAssign] at hw
  | cons emp rest ih =>
    intro ls w hw
    simp only [cappedAssign] at hw
    rcases List.mem_append.mp hw with hg | hr
    · exact ⟨emp, List.mem_cons_self _ _, giveToEmp_writes emp per ls w hg⟩
    · obtain ⟨e, he, hw2⟩ := ih _ w hr
      exact ⟨e, List.mem_cons_of_mem _ he, hw2⟩

lemma manualMapLoop_writes (callerId : Nat) (teamIds : List Nat) :
    ∀ (entries : List MapEntry) (store : List Lead),
      ∀ w ∈ (manualMapLoop callerId teamIds store entries).writes,
        ∃ e ∈ teamIds, w.assignedTo = some e := by
  intro entries
  induction entries with
  | nil => intro store w hw; simp [manualMapLoop] at hw
  | cons a rest ih =>
    intro store w hw
    simp only [manualMapLoop] at hw
    split at hw
    · exact ih store w hw
    · split at hw
      · exact ih store w hw
      · next hcon _ =>
        rcases List.mem_append.mp hw with hg | hr
        · obtain ⟨l, hl, rfl⟩ := List.mem_map.mp hg
          refine ⟨a.employeeId, ?_, rfl⟩
          have := not_not.mp hcon
          simpa using this
        · exact ih _ w hr

lemma assignRoute_writes (callerId : Nat) (users : List User)
    (leads : List Lead) (leadIds : List Nat) (employeeId : Nat)
    (ws : List Lead) (h : assignRoute callerId users leads leadIds employeeId
      = .ok ws) :
    ∀ w ∈ ws, underManager users callerId w := by
  unfold assignRoute at h
  cases hfind : users.find?
      (fun u => u.id == employeeId && u.manager == some callerId) with
  | none => rw [hfind] at h; exact Except.noConfusion h
  | some u =>
    rw [hfind] at h
    injection h with h
    subst h
    intro w hw
    obtain ⟨l, hl, rfl⟩ := List.mem_map.mp hw
    have hp := List.find?_some hfind
    simp only [Bool.and_eq_true, beq_iff_eq] at hp
    exact ⟨u, List.mem_of_find?_eq_some hfind, hp.2, by simp [hp.1]⟩

/-- Claim C3: across all four distribution strategies (direct assign,
uncapped round-robin, capped round-robin, explicit manual map — the latter
three via `autoRoute`/`manualMapRoute`), every lead written during the
request has its new `assignedTo` pointing at a user whose `manager` field is
the calling manager's id: a lead is never assigned outside the caller's
team. -/
theorem assignment_routes_stay_in_team
    (callerId : Nat) (users : List User) (leads1 leads2 leads3 : List Lead)
    (leadIds : List Nat) (employeeId : Nat) (ws1 : List Lead)
    (h1 : assignRoute callerId users leads1 leadIds employeeId = .ok ws1)
    (leadIds2 : Option (List Nat)) (per : Option Int) (r : AutoResult)
    (h2 : autoRoute callerId users leads2 leadIds2 per = .ok r)
    (entries : List MapEntry) (res : ManualResult)
    (h3 : manualMapRoute callerId users leads3 entries = .ok res) :
    (∀ w ∈ ws1, underManager users callerId w) ∧
    (∀ w ∈ r.writes, underManager users callerId w) ∧
    (∀ w ∈ res.writes, underManager users callerId w) := by
  refine ⟨assignRoute_writes callerId users leads1 leadIds employeeId ws1 h1,
    ?_, ?_⟩
  · simp only [autoRoute] at h2
    split at h2
    · exact Except.noConfusion h2
    next hteam =>
      have hne : teamOf callerId users ≠ [] := by
        simpa [List.isEmpty_iff] using hteam
      split at h2
      · injection h2 with h2
        subst h2
        intro w hw
        simp at hw
      · split at h2 <;> injection h2 with h2 <;> subst h2 <;> intro w hw
        · obtain ⟨e, he, hwa⟩ := cappedAssign_writes _ _ _ w hw
          obtain ⟨u, hu, hum, rfl⟩ := mem_teamOf callerId users e he
          exact ⟨u, hu, hum, hwa⟩
        · obtain ⟨e, he, hwa⟩ := rrAssign_writes _ hne _ _ w hw
          obtain ⟨u, hu, hum, rfl⟩ := mem_teamOf callerId users e he
          exact ⟨u, hu, hum, hwa⟩
  · unfold manualMapRoute at h3
    split at h3
    · exact Except.noConfusion h3
    · injection h3 with h3
      subst h3
      intro w hw
      obtain ⟨e, he, hwa⟩ := manualMapLoop_writes callerId _ _ _ w hw
      obtain ⟨u, hu, hum, rfl⟩ := mem_teamOf callerId users e he
      exact ⟨u, hu, hum, hwa⟩

def freshLead : Lead := { baseLead with id := 5, assignedTo := none }

def freshLead2 : Lead := { baseLead with id := 6, assignedTo := none }

def wDirect : Lead := { baseLead with assignedTo := some 8 }

def wAuto : Lead := { freshLead with assignedTo := some 7 }

def wManual : Lead := { freshLead2 with assignedTo := some 8 }

/-- Witness for claim C3: one concrete write per route (direct assign to 8,
round-robin to 7, manual map to 8) all land inside manager 3's team. -/
theorem assignment_routes_stay_in_team_witness :
    underManager twoEmpUsers 3 wDirect ∧
    underManager twoEmpUsers 3 wAuto ∧
    underManager twoEmpUsers 3 wManual :=
  have T := assignment_routes_stay_in_team 3 twoEmpUsers [baseLead]
    [freshLead] [freshLead2] [1] 8 [wDirect] (by decide)
    (some [5]) none ⟨[(5, 7)], [], [wAuto]⟩ (by decide)
    [⟨8, [6]⟩] ⟨[.counts 8 1 0], 1, 0, [wManual], [wManual]⟩ (by decide)
  ⟨T.1 wDirect (by decide), T.2.1 wAuto (by decide),
    T.2.2 wManual (by decide)⟩

lemma giveToEmp_assigned (emp : Nat) (k : Nat) (ls : List Lead) :
    (∀ p ∈ (giveToEmp emp k ls).1, p.2 = emp) ∧
    (giveToEmp emp k ls).1.length ≤ k := by
  induction ls generalizing k with
  | nil => exact ⟨by simp [giveToEmp], by simp [giveToEmp]⟩
  | cons l ls ih =>
    by_cases hk : k = 0
    · subst hk
      exact ⟨by simp [giveToEmp], by simp [giveToEmp]⟩
    · by_cases hs : l.assignedTo == some emp
      · have : giveToEmp emp k (l :: ls) =
            ((giveToEmp emp k ls).1, l.id :: (giveToEmp emp k ls).2.1,
              (giveToEmp emp k ls).2.2.1, (giveToEmp emp k ls).2.2.2) := by
          simp [giveToEmp, hk, hs]
        rw [this]
        exact ⟨(ih k).1, (ih k).2⟩
      · have : giveToEmp emp k (l :: ls) =
            ((l.id, emp) :: (giveToEmp emp (k - 1) ls).1,
              (giveToEmp emp (k - 1) ls).2.1,
              { l with assignedTo := some emp } ::
                (giveToEmp emp (k - 1) ls).2.2.1,
              (giveToEmp emp (k - 1) ls).2.2.2) := by
          simp [giveToEmp, hk, hs]
        rw [this]
        constructor
        · intro p hp
          rcases List.mem_cons.mp hp with rfl | hpm
          · rfl
          · exact (ih (k - 1)).1 p hpm
        · have := (ih (k - 1)).2
          simp only [List.length_cons]
          omega

lemma cappedAssign_assigned_mem (per : Nat) (team : List Nat) :
    ∀ (ls : List Lead), ∀ p ∈ (cappedAssign per team ls).1, p.2 ∈ team := by
  induction team with
  | nil => intro ls p hp; simp [cappedAssign] at hp
  | cons emp rest ih =>
    intro ls p hp
    simp only [cappedAssign] at hp
    rcases List.mem_append.mp hp with hg | hr
    · rw [(giveToEmp_assigned emp per ls).1 p hg]
      exact List.mem_cons_self _ _
    · exact List.mem_cons_of_mem _ (ih _ p hr)

lemma cappedAssign_count (per : Nat) (team : List Nat) (hnd : team.Nodup)
    (ls : List Lead) (e : Nat) :
    (cappedAssign per team ls).1.countP (fun p => p.2 == e) ≤ per := by
  induction team generalizing ls with
  | nil => simp [cappedAssign]
  | cons emp rest ih =>
    simp only [cappedAssign, List.countP_append]
    have hnd' : rest.Nodup := hnd.of_cons
    by_cases he : emp = e
    · subst he
      have h1 : (giveToEmp emp per ls).1.countP (fun p => p.2 == emp) ≤ per := by
        calc (giveToEmp emp per ls).1.countP (fun p => p.2 == emp)
            ≤ (giveToEmp emp per ls).1.length := List.countP_le_length _
          _ ≤ per := (giveToEmp_assigned emp per ls).2
      have h2 : (cappedAssign per rest (giveToEmp emp per ls).2.2.2).1.countP
          (fun p => p.2 == emp) = 0 := by
        rw [List.countP_eq_zero]
        intro p hp
        have hmem := cappedAssign_assigned_mem per rest _ p hp
        have : emp ∉ rest := (List.nodup_cons.mp hnd).1
        simp only [beq_iff_eq]
        intro hcon
        rw [hcon] at hmem
        exact this hmem
      omega
    · have h1 : (giveToEmp emp per ls).1.countP (fun p => p.2 == e) = 0 := by
        rw [List.countP_eq_zero]
        intro p hp
        rw [(giveToEmp_assigned emp per ls).1 p hp]
        simp only [beq_iff_eq]
        exact he
      have h2 := ih hnd' (giveToEmp emp per ls).2.2.2
      omega

/-- Claim C6: with a positive per-employee cap, the capped round-robin
branch of `/leads/assign/auto` never assigns more than the cap to a single
employee, for every candidate lead list and every (duplicate-free) team. -/
theorem capped_roundRobin_respects_cap
    (callerId : Nat) (users : List User) (leads : List Lead)
    (leadIds : Option (List Nat)) (k : Int) (r : AutoResult)
    (hk : 0 < k)
    (h : autoRoute callerId users leads leadIds (some k) = .ok r)
    (hnd : (teamOf callerId users).Nodup) (e : Nat) :
    r.assigned.countP (fun p => p.2 == e) ≤ k.toNat := by
  simp only [autoRoute] at h
  split at h
  · exact Except.noConfusion h
  · split at h
    · injection h with h
      subst h
      simp
    · split at h
      · injection h with h
        subst h
        exact cappedAssign_count _ _ hnd _ e
      · next hc =>
        exact absurd (by simpa using hk) hc

/-- Three unassigned leads created by manager 3, for the cap witness. -/
def freshLead3 : Lead := { baseLead with id := 11, assignedTo := none }

def freshLead4 : Lead := { baseLead with id := 12, assignedTo := none }

def freshLead5 : Lead := { baseLead with id := 13, assignedTo := none }


/-- Result of the capped distribution in the C6 witness. -/
def rC6 : AutoResult :=
  ⟨[(11, 7), (12, 8)], [],
    [{ freshLead3 with assignedTo := some 7 },
      { freshLead4 with assignedTo := some 8 }]⟩

/-- Witness for claim C6: cap 1, three candidate leads, team `[7, 8]`;
employee 7 receives one lead, within the cap. -/
theorem capped_roundRobin_respects_cap_witness :
    rC6.assigned.countP (fun p => p.2 == 7) ≤ (1 : Int).toNat :=
  capped_roundRobin_respects_cap 3 twoEmpUsers
    [freshLead3, freshLead4, freshLead5] (some [11, 12, 13]) 1 rC6
    (by decide) (by decide) (by decide) 7

/-- Number of round-robin slots in the index window `[i, i + n)` that point
at employee `e`: slot `j` points at `team[j % team.length]`. -/
def countPos (team : List Nat) (e : Nat) : Nat → Nat → Nat
  | _, 0 => 0
  | i, Nat.succ n =>
    (if team.getD (i % team.length) 0 = e then 1 else 0) +
      countPos team e (i + 1) n

lemma rrAssign_partition (teamIds : List Nat) :
    ∀ (ls : List Lead) (i : Nat),
      ((rrAssign teamIds ls i).1.map Prod.fst ++
        (rrAssign teamIds ls i).2.1).Perm (ls.map Lead.id) := by
  intro ls
  induction ls with
  | nil => intro i; simp [rrAssign]
  | cons l ls ih =>
    intro i
    simp only [rrAssign]
    split
    · simp only [List.map_cons]
      exact (List.perm_middle.trans ((ih (i + 1)).cons l.id)).symm.symm
    · simp only [List.map_cons, List.cons_append]
      exact (ih (i + 1)).cons l.id

lemma rrAssign_count_le_countPos (team : List Nat) (e : Nat) :
    ∀ (ls : List Lead) (i : Nat),
      (rrAssign team ls i).1.countP (fun p => p.2 == e) ≤
        countPos team e i ls.length := by
  intro ls
  induction ls with
  | nil => intro i; simp [rrAssign, countPos]
  | cons l ls ih =>
    intro i
    simp only [rrAssign, List.length_cons, countPos]
    split
    · exact le_add_left (ih (i + 1))
    · rw [List.countP_cons]
      have := ih (i + 1)
      by_cases he : team.getD (i % team.length) 0 = e
      · simp only [he, beq_iff_eq, if_pos rfl]
        omega
      · have hb : ((l.id, team.getD (i % team.length) 0).2 == e) = false := by
          simpa using he
        rw [hb, if_neg he]
        simpa using ih (i + 1)

lemma countPos_split (team : List Nat) (e : Nat) :
    ∀ (m : Nat) (i n : Nat),
      countPos team e i (m + n) = countPos team e i m + countPos team e (i + m) n := by
  intro m
  induction m with
  | zero => intro i n; simp [countPos]
  | succ m ih =>
    intro i n
    have h1 : m + 1 + n = (m + n) + 1 := by omega
    rw [h1]
    simp only [countPos]
    rw [ih (i + 1) n]
    have h2 : i + 1 + m = i + (m + 1) := by omega
    rw [h2]
    omega

lemma countPos_shift (team : List Nat) (e : Nat) (i : Nat) :
    countPos team e (i + 1) team.length = countPos team e i team.length := by
  have h1 := countPos_split team e 1 i team.length
  have h2 := countPos_split team e team.length i 1
  have h3 : 1 + team.length = team.length + 1 := by omega
  rw [h3] at h1
  have h4 : (i + team.length) % team.length = i % team.length :=
    Nat.add_mod_right i team.length
  simp only [countPos] at h1 h2
  rw [h4] at h2
  omega

lemma countPos_base (team : List Nat) (e : Nat) (i : Nat) :
    countPos team e i team.length = countPos team e 0 team.length := by
  induction i with
  | zero => rfl
  | succ i ih => rw [countPos_shift team e i] at *; exact ih

lemma countPos_take (team : List Nat) (e : Nat) :
    ∀ (n i : Nat), i + n ≤ team.length →
      countPos team e i n = ((team.drop i).take n).count e := by
  intro n
  induction n with
  | zero => intro i h; simp [countPos]
  | succ n ih =>
    intro i h
    have hi : i < team.length := by omega
    have him : i % team.length = i := Nat.mod_eq_of_lt hi
    simp only [countPos, him]
    rw [List.getD_eq_getElem _ _ hi]
    have hdrop : team.drop i = team[i] :: team.drop (i + 1) :=
      List.drop_eq_getElem_cons hi
    rw [hdrop]
    simp only [List.take_succ_cons, List.count_cons]
    rw [ih (i + 1) (by omega)]
    by_cases heq : team[i] = e
    · simp [heq]
      omega
    · simp [heq, Ne.symm heq]

lemma countPos_window (team : List Nat) (e : Nat) (hnd : team.Nodup) :
    countPos team e 0 team.length ≤ 1 := by
  rw [countPos_take team e team.length 0 (by omega)]
  simp only [List.drop_zero, List.take_length]
  exact List.nodup_iff_count_le_one.mp hnd e

lemma countPos_le_ceil (team : List Nat) (e : Nat) (hnd : team.Nodup)
    (hM : team.length ≠ 0) :
    ∀ (n : Nat) (i : Nat),
      countPos team e i n ≤ (n + team.length - 1) / team.length := by
  intro n
  induction n using Nat.strong_induction_on with
  | _ n ih =>
    intro i
    rcases Nat.eq_zero_or_pos n with hn | hn
    · subst hn; simp [countPos]
    · by_cases hnM : n ≤ team.length
      · have hmono : countPos team e i n ≤ countPos team e i team.length := by
          have hs := countPos_split team e n i (team.length - n)
          rw [show n + (team.length - n) = team.length by omega] at hs
          omega
        have hw : countPos team e i team.length ≤ 1 := by
          rw [countPos_base]
          exact countPos_window team e hnd
        have hb : 1 ≤ (n + team.length - 1) / team.length := by
          refine (Nat.one_le_div_iff (by omega)).mpr ?_
          omega
        omega
      · push_neg at hnM
        have hsplit := countPos_split team e team.length i (n - team.length)
        rw [show team.length + (n - team.length) = n by omega] at hsplit
        have h1 : countPos team e i team.length ≤ 1 := by
          rw [countPos_base]
          exact countPos_window team e hnd
        have h2 := ih (n - team.length) (by omega) (i + team.length)
        have e1 : n - team.length + team.length - 1 = n - 1 := by omega
        have e2 : n + team.length - 1 = (n - 1) + team.length := by omega
        rw [e1] at h2
        rw [e2, Nat.add_div_right _ (by omega : 0 < team.length)]
        omega

/-- Claim C5 amended: for the uncapped round-robin branch, every allowed
lead lands exactly once in assigned or skipped (as a permutation of the
ordered allowed list), and each employee is assigned at most `⌈N / M⌉`
leads — the exact `⌈N/M⌉`-or-`⌊N/M⌋` share fails because a lead already
held by its slot employee is skipped, reducing that employee's share. -/
theorem uncapped_roundRobin_distribution
    (callerId : Nat) (users : List User) (leads : List Lead)
    (leadIds : Option (List Nat)) (per : Option Int) (r : AutoResult)
    (h : autoRoute callerId users leads leadIds per = .ok r)
    (hper : per.getD 0 ≤ 0)
    (hnd : (teamOf callerId users).Nodup) :
    ((r.assigned.map Prod.fst ++ r.skipped).Perm
      ((allowedOf callerId (teamOf callerId users) leads leadIds).map
        Lead.id)) ∧
    ∀ e, r.assigned.countP (fun p => p.2 == e) ≤
      ((allowedOf callerId (teamOf callerId users) leads leadIds).length +
        (teamOf callerId users).length - 1) /
        (teamOf callerId users).length := by
  simp only [autoRoute] at h
  split at h
  · exact Except.noConfusion h
  next hteam =>
    have hM : (teamOf callerId users).length ≠ 0 := by
      simp only [List.isEmpty_eq_true] at hteam
      intro hc
      exact hteam (List.length_eq_zero.mp hc)
    split at h
    next hallow =>
      injection h with h
      subst h
      have hemp : allowedOf callerId (teamOf callerId users) leads leadIds
          = [] := by
        simpa [List.isEmpty_iff] using hallow
      rw [hemp]
      exact ⟨by simp, fun e => by simp⟩
    next hallow =>
      split at h
      · next hc => exact absurd hc (not_lt.mpr hper)
      · injection h with h
        subst h
        refine ⟨rrAssign_partition _ _ 0, fun e => ?_⟩
        calc (rrAssign (teamOf callerId users)
              (allowedOf callerId (teamOf callerId users) leads leadIds)
              0).1.countP (fun p => p.2 == e)
            ≤ countPos (teamOf callerId users) e 0
              (allowedOf callerId (teamOf callerId users) leads
                leadIds).length := rrAssign_count_le_countPos _ _ _ 0
          _ ≤ _ := countPos_le_ceil _ e hnd hM _ 0

/-- A lead already held by employee 7 (creation time 0). -/
def heldLead1 : Lead := { baseLead with id := 10 }

/-- A second lead already held by employee 7 (creation time 1). -/
def heldLead2 : Lead := { baseLead with id := 11, createdAt := 1 }

/-- Counterexample to claim C5 as stated: N = 2 candidate leads round-robined
over the M = 1 team `[7]`; both leads are already held by employee 7, so both
are skipped and employee 7 is assigned 0 leads, not `⌈2/1⌉ = ⌊2/1⌋ = 2`. -/
theorem c5_quota_violated_by_skips :
    autoRoute 3 c4Users [heldLead1, heldLead2] (some [10, 11]) none =
      .ok ⟨[], [10, 11], []⟩ ∧
    ([] : List (Nat × Nat)).countP (fun p => p.2 == 7) = 0 ∧
    (2 : Nat) / 1 = 2 ∧ (0 : Nat) ≠ 2 :=
  ⟨by decide, by decide, by decide, by decide⟩

/-- Result of the uncapped distribution in the C5 witness. -/
def rC5 : AutoResult :=
  ⟨[(11, 7), (12, 8), (13, 7)], [],
    [{ freshLead3 with assignedTo := some 7 },
      { freshLead4 with assignedTo := some 8 },
      { freshLead5 with assignedTo := some 7 }]⟩

/-- Witness for the amended claim C5: three fresh leads over team `[7, 8]`
are distributed `7, 8, 7`; the assigned/skipped union is a permutation of
the allowed list and employee 7's share 2 is within `⌈3/2⌉ = 2`. -/
theorem uncapped_roundRobin_distribution_witness :
    ((rC5.assigned.map Prod.fst ++ rC5.skipped).Perm
      ((allowedOf 3 (teamOf 3 twoEmpUsers)
        [freshLead3, freshLead4, freshLead5] (some [11, 12, 13])).map
        Lead.id)) ∧
    rC5.assigned.countP (fun p => p.2 == 7) ≤
      ((allowedOf 3 (teamOf 3 twoEmpUsers)
        [freshLead3, freshLead4, freshLead5] (some [11, 12, 13])).length +
        (teamOf 3 twoEmpUsers).length - 1) / (teamOf 3 twoEmpUsers).length :=
  have T := uncapped_roundRobin_distribution 3 twoEmpUsers
    [freshLead3, freshLead4, freshLead5] (some [11, 12, 13]) none rC5
    (by decide) (by decide) (by decide)
  ⟨T.1, T.2 7⟩
